import Mathlib

/-!
# A verification development for the `xat-solve` cardinality-constraint solver

This file gives a shallow embedding of the solver core in `src/graph.rs`
(the `Graph` type with its node store and one-of groups, and the
propagation / subset-absorption / backtracking `solve` loop), and proves
or refutes the specification's claims about it.

Modelling conventions:
* Rust's `Vec<NodeData>` becomes `List NodeData`; a `Node` handle
  (`NonZeroU16` in the source) becomes a `Nat` index into that list.
  The 16-bit width is an implementation limit, not semantics, and is not
  modelled.
* Indexing a `Vec` out of bounds panics in the source.  The model reads
  such a slot as `Unknown` and lets `List.set` be the identity there;
  every theorem below constrains the handles it talks about to be in
  range, so the two behaviours are never distinguished.
* The `solve` loop and its speculative recursion are not structurally
  terminating (and in fact do not terminate on some inputs), so they are
  modelled with an explicit fuel parameter: `SolveResult.outOfFuel` means
  the fuel ran out before the source program would have reached a result.
  A `.unwrap()` of an `Err` in the source aborts the process; this is
  modelled by the distinguished outcome `SolveResult.panicked`.
-/

namespace XatSolve

/-- One slot of the variable store: `Known v` or `Unknown`
(the `NodeData` enum of the source). -/
inductive NodeData where
  | Known (value : Bool)
  | Unknown
deriving DecidableEq, Repr

/-- The sole error signal of the solver (`pub struct Contradiction;`). -/
inductive Contradiction where
  | mk
deriving DecidableEq, Repr

/-- A node handle: the index of a slot in the variable store.
The source wraps a `NonZeroU16`; handles issued by `new_node` are ≥ 1
because slot 0 is the always-false sentinel. -/
abbrev Node := Nat

/-- The solver state (`pub struct Graph`): the variable store plus the
ordered registry of one-of groups, each a member list paired with its
exactness flag (`true` = exactly-one, `false` = at-most-one). -/
structure Graph where
  nodes : List NodeData
  one_of_groups : List (List Node × Bool)
deriving DecidableEq, Repr

/-- The initial state (`impl Default for Graph`): a store holding only the
`Known false` sentinel at index 0, and no groups. -/
def Graph.default : Graph :=
  { nodes := [NodeData.Known false], one_of_groups := [] }

/-- Reading a slot of the store (`Graph::get_node`): `some v` if
`Known v`, `none` if `Unknown`.  The source panics on an out-of-range
handle; the model reads `none` there. -/
def storeGet (store : List NodeData) (n : Node) : Option Bool :=
  match store.get? n with
  | some (NodeData.Known v) => some v
  | some NodeData.Unknown => none
  | none => none

/-- Writing a slot of the store (`Graph::set_node`).  The source
`mem::replace`s the slot with `Known value` first and only then inspects
the old contents, so on a conflicting write the slot keeps the *new*
value while `Err(Contradiction)` is returned.  The source panics on an
out-of-range handle; the model leaves the store unchanged and succeeds
there (`List.set` is the identity out of range). -/
def storeSet (store : List NodeData) (n : Node) (v : Bool) :
    List NodeData × Except Contradiction Unit :=
  let store1 := store.set n (NodeData.Known v)
  match store.get? n with
  | some (NodeData.Known old) =>
      (store1, if old = v then Except.ok () else Except.error Contradiction.mk)
  | some NodeData.Unknown => (store1, Except.ok ())
  | none => (store1, Except.ok ())

/-- `Graph::get_node`. -/
def Graph.get_node (g : Graph) (n : Node) : Option Bool :=
  storeGet g.nodes n

/-- `Graph::set_node`: returns the mutated graph together with the
`Result<(), Contradiction>` of the source. -/
def Graph.set_node (g : Graph) (n : Node) (v : Bool) :
    Graph × Except Contradiction Unit :=
  match storeSet g.nodes n v with
  | (store1, r) => ({ g with nodes := store1 }, r)

/-- `Graph::new_node`: appends an `Unknown` slot and returns its handle
(the store length before the push). -/
def Graph.new_node (g : Graph) : Graph × Node :=
  ({ g with nodes := g.nodes ++ [NodeData.Unknown] }, g.nodes.length)

/-- `Graph::require_at_most_one_of`: appends an exactness-`false` group. -/
def Graph.require_at_most_one_of (g : Graph) (nodes : List Node) : Graph :=
  { g with one_of_groups := g.one_of_groups ++ [(nodes, false)] }

/-- `Graph::require_exactly_one_of`: appends an exactness-`true` group. -/
def Graph.require_exactly_one_of (g : Graph) (nodes : List Node) : Graph :=
  { g with one_of_groups := g.one_of_groups ++ [(nodes, true)] }

/-- One update of the `found_true` accumulator of the sweep, applied each
time a member reads `Known(true)`.  Faithful to the source's
`if found_true == Ok(true) { found_true = Err(Contradiction) } else
{ found_true = Ok(true) }`, which *toggles* between `Ok(true)` and
`Err(Contradiction)` rather than latching the error. -/
def toggle1 (ft : Except Contradiction Bool) : Except Contradiction Bool :=
  match ft with
  | Except.ok true => Except.error Contradiction.mk
  | _ => Except.ok true

/-- The body of the `nodes.retain(..)` closure of the sweep, run over the
whole member list: returns the retained (still-unknown) members in
order, the final `found_true` accumulator, and the accumulated
`changed` flag (`changed |= known.is_some()`). -/
def sweepMembers (store : List NodeData) :
    List Node → Except Contradiction Bool → Bool →
    List Node × Except Contradiction Bool × Bool
  | [], ft, ch => ([], ft, ch)
  | n :: rest, ft, ch =>
    let known := storeGet store n
    let ft1 := if known = some true then toggle1 ft else ft
    let res := sweepMembers store rest ft1 (ch || known.isSome)
    (if known.isNone then n :: res.1 else res.1, res.2.1, res.2.2)

/-- The `for node in nodes.drain(..) { node.set(&mut self, false)?; }`
of the sweep's found-true branch: sets every listed node `false`,
threading the store and propagating the first write error. -/
def setAllFalse : List NodeData → List Node → Except Contradiction (List NodeData)
  | store, [] => Except.ok store
  | store, n :: rest =>
    match storeSet store n false with
    | (_, Except.error _) => Except.error Contradiction.mk
    | (store1, Except.ok _) => setAllFalse store1 rest

/-- Processing of a single one-of group inside one sweep iteration:
retain the unknown members, handle the found-true drain, and for an
exactness-`true` group raise `Contradiction` on exhaustion or force a
last remaining member `true`.  Returns the new store, the group's new
member list and the group's contribution to `changed`. -/
def processGroup (store : List NodeData) (grp : List Node × Bool) :
    Except Contradiction (List NodeData × List Node × Bool) :=
  let res := sweepMembers store grp.1 (Except.ok false) false
  match res.2.1 with
  | Except.error _ => Except.error Contradiction.mk
  | Except.ok true =>
    match setAllFalse store res.1 with
    | Except.error _ => Except.error Contradiction.mk
    | Except.ok store1 => Except.ok (store1, [], res.2.2)
  | Except.ok false =>
    if grp.2 then
      if res.1.isEmpty then Except.error Contradiction.mk
      else
        match res.1 with
        | [n] =>
          match storeSet store n true with
          | (_, Except.error _) => Except.error Contradiction.mk
          | (store1, Except.ok _) => Except.ok (store1, [], true)
        | _ => Except.ok (store, res.1, res.2.2)
    else Except.ok (store, res.1, res.2.2)

/-- The `for (nodes, exact) in &mut one_of_groups` sweep over the whole
registry: processes the groups in order, threading the store, rebuilding
the (in-place mutated) group list and OR-ing the `changed` flags. -/
def sweepGroups : List NodeData → List (List Node × Bool) →
    Except Contradiction (List NodeData × List (List Node × Bool) × Bool)
  | store, [] => Except.ok (store, [], false)
  | store, grp :: rest =>
    match processGroup store grp with
    | Except.error _ => Except.error Contradiction.mk
    | Except.ok (store1, kept, ch) =>
      match sweepGroups store1 rest with
      | Except.error _ => Except.error Contradiction.mk
      | Except.ok (store2, rest1, ch1) =>
        Except.ok (store2, (kept, grp.2) :: rest1, ch || ch1)

/-- Stable insertion of a group into a list already sorted by ascending
member-list length: the group goes after every group of smaller or equal
length, as a stable sort places it. -/
def insertSorted (x : List Node × Bool) :
    List (List Node × Bool) → List (List Node × Bool)
  | [] => [x]
  | h :: t => if h.1.length ≤ x.1.length then h :: insertSorted x t else x :: h :: t

/-- Model of `one_of_groups.sort_by_key(|(nodes, _)| nodes.len())`:
a stable sort by ascending member-list length. -/
def sortGroupsByLen (l : List (List Node × Bool)) : List (List Node × Bool) :=
  l.foldl (fun acc x => insertSorted x acc) []

/-- The drain of an absorbed haystack: every haystack member outside the
needle is set `false` (propagating write errors); needle members are
dropped without a write.  The haystack itself is emptied by the caller. -/
def drainHaystack : List NodeData → List Node → List Node →
    Except Contradiction (List NodeData)
  | store, _, [] => Except.ok store
  | store, needle, n :: rest =>
    if needle.contains n then drainHaystack store needle rest
    else
      match storeSet store n false with
      | (_, Except.error _) => Except.error Contradiction.mk
      | (store1, Except.ok _) => drainHaystack store1 needle rest

/-- The inner haystack scan of the subset-absorption step, for one needle:
walks the groups after the needle, skips any haystack no longer than the
needle, and on the first haystack containing every needle member drains
it (emptying its member list in place).  Returns `none` when no haystack
matches. -/
def absorbScan (store : List NodeData) (needle : List Node) :
    List (List Node × Bool) →
    Option (Except Contradiction (List NodeData × List (List Node × Bool)))
  | [] => none
  | hay :: rest =>
    if hay.1.length ≤ needle.length then
      match absorbScan store needle rest with
      | none => none
      | some (Except.error e) => some (Except.error e)
      | some (Except.ok (store1, rest1)) => some (Except.ok (store1, hay :: rest1))
    else if needle.all fun n => hay.1.contains n then
      match drainHaystack store needle hay.1 with
      | Except.error e => some (Except.error e)
      | Except.ok store1 => some (Except.ok (store1, ([], hay.2) :: rest))
    else
      match absorbScan store needle rest with
      | none => none
      | some (Except.error e) => some (Except.error e)
      | some (Except.ok (store1, rest1)) => some (Except.ok (store1, hay :: rest1))

/-- The outer loop of the subset-absorption step: each exactness-`true`
group in turn is used as the needle against the groups after it; the
first successful absorption sets `changed` and stops the scan (the
source `break`s out of both loops). -/
def absorbGroups (store : List NodeData) :
    List (List Node × Bool) →
    Except Contradiction (List NodeData × List (List Node × Bool) × Bool)
  | [] => Except.ok (store, [], false)
  | grp :: rest =>
    if grp.2 then
      match absorbScan store grp.1 rest with
      | some (Except.error _) => Except.error Contradiction.mk
      | some (Except.ok (store1, rest1)) => Except.ok (store1, grp :: rest1, true)
      | none =>
        match absorbGroups store rest with
        | Except.error _ => Except.error Contradiction.mk
        | Except.ok (store1, rest1, ch) => Except.ok (store1, grp :: rest1, ch)
    else
      match absorbGroups store rest with
      | Except.error _ => Except.error Contradiction.mk
      | Except.ok (store1, rest1, ch) => Except.ok (store1, grp :: rest1, ch)

/-- The candidate search of the backtracking fallback: the member list of
the first exactness-`true` group in registry order, if any. -/
def findFirstExact : List (List Node × Bool) → Option (List Node)
  | [] => none
  | grp :: rest => if grp.2 then some grp.1 else findFirstExact rest

/-- The outcome of a (fuel-limited) run of `Graph::solve`. -/
inductive SolveResult where
  | ok (g : Graph)
  | contradiction
  | outOfFuel
  | panicked
deriving DecidableEq, Repr

/-- The `loop { .. }` of `Graph::solve`, with one unit of fuel per
iteration (the speculative branch recurses on the same fuel budget).
Per iteration: discard empty groups, sweep, and if nothing changed sort
by length and try subset absorption; if still nothing changed and groups
remain, speculate on the first member of the first exactness-`true`
group, accepting a solved branch and otherwise forcing the candidate
`false` in the unbranched state.  When no exactness-`true` group exists
the iteration makes no progress and the source loops forever. -/
def solveLoop : Nat → List NodeData → List (List Node × Bool) → SolveResult
  | 0, _, _ => SolveResult.outOfFuel
  | fuel + 1, store, groups =>
    match sweepGroups store (groups.filter fun grp => !grp.1.isEmpty) with
    | Except.error _ => SolveResult.contradiction
    | Except.ok (store1, groups1, changed1) =>
      if changed1 then solveLoop fuel store1 groups1
      else
        match absorbGroups store1 (sortGroupsByLen groups1) with
        | Except.error _ => SolveResult.contradiction
        | Except.ok (store2, groups2, changed2) =>
          if changed2 then solveLoop fuel store2 groups2
          else if groups2.isEmpty then
            SolveResult.ok { nodes := store2, one_of_groups := groups2 }
          else
            match findFirstExact groups2 with
            | none => solveLoop fuel store2 groups2
            | some [] => SolveResult.panicked
            | some (candidate :: _) =>
              match storeSet store2 candidate true with
              | (_, Except.error _) => SolveResult.panicked
              | (altStore, Except.ok _) =>
                match solveLoop fuel altStore groups2 with
                | SolveResult.ok alt => SolveResult.ok alt
                | SolveResult.contradiction =>
                  match storeSet store2 candidate false with
                  | (_, Except.error _) => SolveResult.panicked
                  | (store3, Except.ok _) => solveLoop fuel store3 groups2
                | r => r

/-- `Graph::solve`: extracts the registry and runs the loop. -/
def Graph.solve (g : Graph) (fuel : Nat) : SolveResult :=
  solveLoop fuel g.nodes g.one_of_groups

/-- A state on which the fuel-limited model never reaches any outcome,
however much fuel it is given: the source's `loop` runs forever. -/
def runsForever (g : Graph) : Prop :=
  ∀ fuel, g.solve fuel = SolveResult.outOfFuel

/-- Iterated application of `toggle1`, used to describe the final
`found_true` accumulator of a sweep as a function of how many members
read `Known(true)`. -/
def toggleN : Except Contradiction Bool → Nat → Except Contradiction Bool
  | ft, 0 => ft
  | ft, k + 1 => toggleN (toggle1 ft) k

/-- Knowledge ordering on stores: every slot known in `s` is known with
the same value in `t`. -/
def storeLe (s t : List NodeData) : Prop :=
  ∀ n v, storeGet s n = some v → storeGet t n = some v

/-- Three fresh nodes, an exactly-one clause on each alone, and an
exactly-one clause over all three: propagation forces each node `true`
individually, and the sweep of the joint clause then sees three
simultaneous `Known(true)` members. -/
def c1Graph : Graph :=
  let p := Graph.default.new_node
  let q := p.1.new_node
  let r := q.1.new_node
  let g := r.1.require_exactly_one_of [p.2]
  let g := g.require_exactly_one_of [q.2]
  let g := g.require_exactly_one_of [r.2]
  g.require_exactly_one_of [p.2, q.2, r.2]

/-- One fresh node carrying a single at-most-one clause: propagation,
absorption and the backtracking fallback all skip it, so the solve loop
makes no progress and never terminates. -/
def stallGraph : Graph :=
  let p := Graph.default.new_node
  p.1.require_at_most_one_of [p.2]

/-- Three fresh nodes all written `Known(true)` before solving, under a
single exactly-one clause: a sweep sees three simultaneous trues. -/
def c6Graph : Graph :=
  let p := Graph.default.new_node
  let q := p.1.new_node
  let r := q.1.new_node
  let g := ((r.1.set_node p.2 true).1.set_node q.2 true).1
  let g := (g.set_node r.2 true).1
  g.require_exactly_one_of [p.2, q.2, r.2]

/-- An exactly-one clause registered with an empty member list. -/
def emptyExactGraph : Graph :=
  Graph.default.require_exactly_one_of []

/-- One fresh (unknown) node listed twice in a single exactly-one
clause. -/
def dupGraph : Graph :=
  let p := Graph.default.new_node
  p.1.require_exactly_one_of [p.2, p.2]

/-- One node written `Known(true)` and listed three times in a single
exactly-one clause: the two-truths check toggles off again. -/
def tripGraph : Graph :=
  let p := Graph.default.new_node
  (p.1.set_node p.2 true).1.require_exactly_one_of [p.2, p.2, p.2]

/-- Ten unknown nodes under a registry holding two needle/haystack
containments at the initial (stalled) fixpoint: the exactness-true
clause `[9, 10]` inside the at-most-one clause `[9, 10, 6, 7, 8]`, and
the exactness-true clause `[1, 2]` inside the at-most-one clause
`[1, 2, 3, 4, 5]`.  Absorption drains only the first pair per stall;
the cascade it triggers then forces nodes 1, 3 and 4 `true` in one
sweep, and the `found_true` toggle lets the clause `[1, 2, 3, 4, 5]`
pass with three true members. -/
def c3CounterGraph : Graph :=
  { nodes := [NodeData.Known false, NodeData.Unknown, NodeData.Unknown,
      NodeData.Unknown, NodeData.Unknown, NodeData.Unknown, NodeData.Unknown,
      NodeData.Unknown, NodeData.Unknown, NodeData.Unknown, NodeData.Unknown],
    one_of_groups := [([9, 10], true), ([1, 6], true), ([3, 7], true),
      ([4, 8], true), ([1, 2], true), ([9, 10, 6, 7, 8], false),
      ([1, 2, 3, 4, 5], false)] }

/-! ## Elementary list-slot lemmas -/

theorem get?_set_self {α : Type} :
    ∀ (l : List α) (n : Nat) (a : α), n < l.length → (l.set n a).get? n = some a := by
  intro l
  induction l with
  | nil => intro n a h; simp at h
  | cons x xs ih =>
    intro n a h
    cases n with
    | zero => rfl
    | succ m => exact ih m a (Nat.lt_of_succ_lt_succ h)

theorem get?_set_other {α : Type} :
    ∀ (l : List α) (n m : Nat) (a : α), n ≠ m → (l.set n a).get? m = l.get? m := by
  intro l
  induction l with
  | nil => intro n m a _; simp
  | cons x xs ih =>
    intro n m a h
    cases n with
    | zero =>
      cases m with
      | zero => exact absurd rfl h
      | succ k => rfl
    | succ j =>
      cases m with
      | zero => rfl
      | succ k => exact ih j k a (fun hc => h (congrArg Nat.succ hc))

theorem set_of_get? {α : Type} :
    ∀ (l : List α) (n : Nat) (a : α), l.get? n = some a → l.set n a = l := by
  intro l
  induction l with
  | nil => intro n a h; cases n <;> simp at h
  | cons x xs ih =>
    intro n a h
    cases n with
    | zero => simp at h; simp [h]
    | succ m => simpa using ih m a (by simpa using h)

theorem get?_some_lt {α : Type} :
    ∀ (l : List α) (n : Nat) (a : α), l.get? n = some a → n < l.length := by
  intro l
  induction l with
  | nil => intro n a h; cases n <;> simp at h
  | cons x xs ih =>
    intro n a h
    cases n with
    | zero => simp
    | succ m => exact Nat.succ_lt_succ (ih m a (by simpa using h))

theorem lt_get?_some {α : Type} :
    ∀ (l : List α) (n : Nat), n < l.length → ∃ a, l.get? n = some a := by
  intro l
  induction l with
  | nil => intro n h; simp at h
  | cons x xs ih =>
    intro n h
    cases n with
    | zero => exact ⟨x, rfl⟩
    | succ m => exact ih m (Nat.lt_of_succ_lt_succ h)

/-! ## Store lemmas -/

theorem storeGet_eq_some {s : List NodeData} {n : Node} {v : Bool} :
    storeGet s n = some v ↔ s.get? n = some (NodeData.Known v) := by
  unfold storeGet
  cases h : s.get? n with
  | none => simp
  | some d => cases d <;> simp

theorem storeSet_fst (s : List NodeData) (n : Node) (v : Bool) :
    (storeSet s n v).1 = s.set n (NodeData.Known v) := by
  unfold storeSet
  cases h : s.get? n with
  | none => simp
  | some d => cases d <;> simp

theorem storeSet_length (s : List NodeData) (n : Node) (v : Bool) :
    (storeSet s n v).1.length = s.length := by
  rw [storeSet_fst]; exact s.length_set n _

theorem storeLe_refl (s : List NodeData) : storeLe s s := fun _ _ h => h

theorem storeLe_trans {s t u : List NodeData} (h1 : storeLe s t) (h2 : storeLe t u) :
    storeLe s u := fun n v h => h2 n v (h1 n v h)

theorem storeSet_ok_le {s : List NodeData} {n : Node} {v : Bool} {s1 : List NodeData}
    {u : Unit} (h : storeSet s n v = (s1, Except.ok u)) : storeLe s s1 := by
  have hfst : s1 = s.set n (NodeData.Known v) := by
    rw [← storeSet_fst s n v, h]
  intro m w hm
  by_cases hne : m = n
  · subst hne
    rw [storeGet_eq_some] at hm
    have hveq : w = v := by
      unfold storeSet at h
      rw [hm] at h
      by_cases hwv : w = v
      · exact hwv
      · simp [hwv] at h
    subst hveq
    rw [storeGet_eq_some, hfst]
    exact get?_set_self s m _ (get?_some_lt s m _ hm)
  · rw [storeGet_eq_some] at hm ⊢
    rw [hfst, get?_set_other s n m _ (fun hc => hne hc.symm)]
    exact hm

theorem storeSet_false_get {s : List NodeData} {n : Node} {s1 : List NodeData} {u : Unit}
    (h : storeSet s n false = (s1, Except.ok u)) (hlt : n < s.length) :
    storeGet s1 n = some false := by
  have hfst : s1 = s.set n (NodeData.Known false) := by
    rw [← storeSet_fst s n false, h]
  rw [storeGet_eq_some, hfst]
  exact get?_set_self s n _ hlt

/-! ## Known slots are preserved along every successful path of the solver -/


theorem setAllFalse_le :
    ∀ (l : List Node) (store store1 : List NodeData),
      setAllFalse store l = Except.ok store1 → storeLe store store1 := by
  intro l
  induction l with
  | nil =>
    intro store store1 h
    cases h
    exact storeLe_refl _
  | cons n rest ih =>
    intro store store1 h
    unfold setAllFalse at h
    cases hset : storeSet store n false with
    | mk store2 r =>
      cases r with
      | error e =>
        simp only [hset] at h
        exact Except.noConfusion h
      | ok u =>
        simp only [hset] at h
        exact storeLe_trans (storeSet_ok_le hset) (ih store2 store1 h)

theorem processGroup_le {store : List NodeData} {grp : List Node × Bool}
    {store1 : List NodeData} {kept : List Node} {ch : Bool}
    (h : processGroup store grp = Except.ok (store1, kept, ch)) :
    storeLe store store1 := by
  unfold processGroup at h
  cases hft : (sweepMembers store grp.1 (Except.ok false) false).2.1 with
  | error e =>
    simp only [hft] at h
    exact Except.noConfusion h
  | ok b =>
    cases b with
    | true =>
      simp only [hft] at h
      cases hsaf : setAllFalse store (sweepMembers store grp.1 (Except.ok false) false).1 with
      | error e =>
        simp only [hsaf] at h
        exact Except.noConfusion h
      | ok store2 =>
        simp only [hsaf] at h
        cases h
        exact setAllFalse_le _ _ _ hsaf
    | false =>
      simp only [hft] at h
      by_cases hex : grp.2 = true
      · rw [if_pos hex] at h
        by_cases hemp : (sweepMembers store grp.1 (Except.ok false) false).1.isEmpty = true
        · rw [if_pos hemp] at h
          exact Except.noConfusion h
        · rw [if_neg hemp] at h
          cases hkept : (sweepMembers store grp.1 (Except.ok false) false).1 with
          | nil => simp [hkept] at hemp
          | cons m ms =>
            cases ms with
            | nil =>
              simp only [hkept] at h
              cases hset : storeSet store m true with
              | mk store2 r =>
                cases r with
                | error e =>
                  simp only [hset] at h
                  exact Except.noConfusion h
                | ok u =>
                  simp only [hset] at h
                  cases h
                  exact storeSet_ok_le hset
            | cons m2 ms2 =>
              simp only [hkept] at h
              cases h
              exact storeLe_refl _
      · rw [if_neg hex] at h
        cases h
        exact storeLe_refl _

theorem sweepGroups_le :
    ∀ (groups : List (List Node × Bool)) (store store1 : List NodeData)
      (groups1 : List (List Node × Bool)) (ch : Bool),
      sweepGroups store groups = Except.ok (store1, groups1, ch) →
      storeLe store store1 := by
  intro groups
  induction groups with
  | nil =>
    intro store store1 groups1 ch h
    cases h
    exact storeLe_refl _
  | cons grp rest ih =>
    intro store store1 groups1 ch h
    unfold sweepGroups at h
    cases hpg : processGroup store grp with
    | error e =>
      simp only [hpg] at h
      exact Except.noConfusion h
    | ok trip =>
      obtain ⟨store2, kept, ch2⟩ := trip
      simp only [hpg] at h
      cases hsw : sweepGroups store2 rest with
      | error e =>
        simp only [hsw] at h
        exact Except.noConfusion h
      | ok trip2 =>
        obtain ⟨store3, rest1, ch3⟩ := trip2
        simp only [hsw] at h
        cases h
        exact storeLe_trans (processGroup_le hpg) (ih _ _ _ _ hsw)

theorem drainHaystack_le :
    ∀ (hay : List Node) (store : List NodeData) (needle : List Node)
      (store1 : List NodeData),
      drainHaystack store needle hay = Except.ok store1 → storeLe store store1 := by
  intro hay
  induction hay with
  | nil =>
    intro store needle store1 h
    cases h
    exact storeLe_refl _
  | cons n rest ih =>
    intro store needle store1 h
    unfold drainHaystack at h
    by_cases hmem : needle.contains n = true
    · rw [if_pos hmem] at h
      exact ih store needle store1 h
    · rw [if_neg hmem] at h
      cases hset : storeSet store n false with
      | mk store2 r =>
        cases r with
        | error e =>
          simp only [hset] at h
          exact Except.noConfusion h
        | ok u =>
          simp only [hset] at h
          exact storeLe_trans (storeSet_ok_le hset) (ih store2 needle store1 h)

theorem drainHaystack_length :
    ∀ (hay : List Node) (store : List NodeData) (needle : List Node)
      (store1 : List NodeData),
      drainHaystack store needle hay = Except.ok store1 →
      store1.length = store.length := by
  intro hay
  induction hay with
  | nil =>
    intro store needle store1 h
    cases h
    rfl
  | cons n rest ih =>
    intro store needle store1 h
    unfold drainHaystack at h
    by_cases hmem : needle.contains n = true
    · rw [if_pos hmem] at h
      exact ih store needle store1 h
    · rw [if_neg hmem] at h
      cases hset : storeSet store n false with
      | mk store2 r =>
        cases r with
        | error e =>
          simp only [hset] at h
          exact Except.noConfusion h
        | ok u =>
          simp only [hset] at h
          have h1 := ih store2 needle store1 h
          have h2 : store2.length = store.length := by
            have h3 := storeSet_length store n false
            rw [hset] at h3
            exact h3
          rw [h1, h2]

theorem absorbScan_le :
    ∀ (hays : List (List Node × Bool)) (store : List NodeData) (needle : List Node)
      (store1 : List NodeData) (hays1 : List (List Node × Bool)),
      absorbScan store needle hays = some (Except.ok (store1, hays1)) →
      storeLe store store1 := by
  intro hays
  induction hays with
  | nil =>
    intro store needle store1 hays1 h
    exact absurd h (by simp [absorbScan])
  | cons hay rest ih =>
    intro store needle store1 hays1 h
    unfold absorbScan at h
    by_cases hlen : hay.1.length ≤ needle.length
    · rw [if_pos hlen] at h
      cases hsc : absorbScan store needle rest with
      | none =>
        simp only [hsc] at h
        exact Option.noConfusion h
      | some r =>
        cases r with
        | error e =>
          simp only [hsc] at h
          cases h
        | ok pr =>
          obtain ⟨store2, rest1⟩ := pr
          simp only [hsc] at h
          cases h
          exact ih _ _ _ _ hsc
    · rw [if_neg hlen] at h
      by_cases hall : (needle.all fun n => hay.1.contains n) = true
      · rw [if_pos hall] at h
        cases hdr : drainHaystack store needle hay.1 with
        | error e =>
          simp only [hdr] at h
          cases h
        | ok store2 =>
          simp only [hdr] at h
          cases h
          exact drainHaystack_le _ _ _ _ hdr
      · rw [if_neg hall] at h
        cases hsc : absorbScan store needle rest with
        | none =>
          simp only [hsc] at h
          exact Option.noConfusion h
        | some r =>
          cases r with
          | error e =>
            simp only [hsc] at h
            cases h
          | ok pr =>
            obtain ⟨store2, rest1⟩ := pr
            simp only [hsc] at h
            cases h
            exact ih _ _ _ _ hsc

theorem absorbGroups_le :
    ∀ (groups : List (List Node × Bool)) (store store1 : List NodeData)
      (groups1 : List (List Node × Bool)) (ch : Bool),
      absorbGroups store groups = Except.ok (store1, groups1, ch) →
      storeLe store store1 := by
  intro groups
  induction groups with
  | nil =>
    intro store store1 groups1 ch h
    cases h
    exact storeLe_refl _
  | cons grp rest ih =>
    intro store store1 groups1 ch h
    unfold absorbGroups at h
    by_cases hex : grp.2 = true
    · rw [if_pos hex] at h
      cases hsc : absorbScan store grp.1 rest with
      | none =>
        simp only [hsc] at h
        cases hre : absorbGroups store rest with
        | error e =>
          simp only [hre] at h
          exact Except.noConfusion h
        | ok trip =>
          obtain ⟨store2, rest1, ch2⟩ := trip
          simp only [hre] at h
          cases h
          exact ih _ _ _ _ hre
      | some r =>
        cases r with
        | error e =>
          simp only [hsc] at h
          exact Except.noConfusion h
        | ok pr =>
          obtain ⟨store2, rest1⟩ := pr
          simp only [hsc] at h
          cases h
          exact absorbScan_le _ _ _ _ _ hsc
    · rw [if_neg hex] at h
      cases hre : absorbGroups store rest with
      | error e =>
        simp only [hre] at h
        exact Except.noConfusion h
      | ok trip =>
        obtain ⟨store2, rest1, ch2⟩ := trip
        simp only [hre] at h
        cases h
        exact ih _ _ _ _ hre

theorem solveLoop_ok_le :
    ∀ (fuel : Nat) (store : List NodeData) (groups : List (List Node × Bool))
      (g1 : Graph), solveLoop fuel store groups = SolveResult.ok g1 →
      storeLe store g1.nodes := by
  intro fuel
  induction fuel with
  | zero =>
    intro store groups g1 h
    exact absurd h (by simp [solveLoop])
  | succ n ih =>
    intro store groups g1 h
    unfold solveLoop at h
    cases hsw : sweepGroups store (groups.filter fun grp => !grp.1.isEmpty) with
    | error e =>
      simp only [hsw] at h
      exact SolveResult.noConfusion h
    | ok trip =>
      obtain ⟨store1, groups1, changed1⟩ := trip
      simp only [hsw] at h
      have hle1 : storeLe store store1 := sweepGroups_le _ _ _ _ _ hsw
      by_cases hc1 : changed1 = true
      · rw [if_pos hc1] at h
        exact storeLe_trans hle1 (ih _ _ _ h)
      · rw [if_neg hc1] at h
        cases hab : absorbGroups store1 (sortGroupsByLen groups1) with
        | error e =>
          simp only [hab] at h
          exact SolveResult.noConfusion h
        | ok trip2 =>
          obtain ⟨store2, groups2, changed2⟩ := trip2
          simp only [hab] at h
          have hle2 : storeLe store store2 :=
            storeLe_trans hle1 (absorbGroups_le _ _ _ _ _ hab)
          by_cases hc2 : changed2 = true
          · rw [if_pos hc2] at h
            exact storeLe_trans hle2 (ih _ _ _ h)
          · rw [if_neg hc2] at h
            by_cases hemp : groups2.isEmpty = true
            · rw [if_pos hemp] at h
              cases h
              exact hle2
            · rw [if_neg hemp] at h
              cases hff : findFirstExact groups2 with
              | none =>
                simp only [hff] at h
                exact storeLe_trans hle2 (ih _ _ _ h)
              | some cand =>
                cases cand with
                | nil =>
                  simp only [hff] at h
                  exact SolveResult.noConfusion h
                | cons candidate restc =>
                  simp only [hff] at h
                  cases hset : storeSet store2 candidate true with
                  | mk altStore r =>
                    cases r with
                    | error e =>
                      simp only [hset] at h
                      exact SolveResult.noConfusion h
                    | ok u =>
                      simp only [hset] at h
                      cases hrec : solveLoop n altStore groups2 with
                      | ok alt =>
                        simp only [hrec] at h
                        cases h
                        exact storeLe_trans hle2
                          (storeLe_trans (storeSet_ok_le hset) (ih _ _ _ hrec))
                      | contradiction =>
                        simp only [hrec] at h
                        cases hset2 : storeSet store2 candidate false with
                        | mk store3 r2 =>
                          cases r2 with
                          | error e2 =>
                            simp only [hset2] at h
                            exact SolveResult.noConfusion h
                          | ok u2 =>
                            simp only [hset2] at h
                            exact storeLe_trans hle2
                              (storeLe_trans (storeSet_ok_le hset2) (ih _ _ _ h))
                      | outOfFuel =>
                        simp only [hrec] at h
                        exact SolveResult.noConfusion h
                      | panicked =>
                        simp only [hrec] at h
                        exact SolveResult.noConfusion h

/-! ## Structure of successful runs -/

theorem solveLoop_ok_groups :
    ∀ (fuel : Nat) (store : List NodeData) (groups : List (List Node × Bool))
      (g1 : Graph), solveLoop fuel store groups = SolveResult.ok g1 →
      g1.one_of_groups = [] := by
  intro fuel
  induction fuel with
  | zero =>
    intro store groups g1 h
    exact absurd h (by simp [solveLoop])
  | succ n ih =>
    intro store groups g1 h
    unfold solveLoop at h
    cases hsw : sweepGroups store (groups.filter fun grp => !grp.1.isEmpty) with
    | error e =>
      simp only [hsw] at h
      exact SolveResult.noConfusion h
    | ok trip =>
      obtain ⟨store1, groups1, changed1⟩ := trip
      simp only [hsw] at h
      by_cases hc1 : changed1 = true
      · rw [if_pos hc1] at h
        exact ih _ _ _ h
      · rw [if_neg hc1] at h
        cases hab : absorbGroups store1 (sortGroupsByLen groups1) with
        | error e =>
          simp only [hab] at h
          exact SolveResult.noConfusion h
        | ok trip2 =>
          obtain ⟨store2, groups2, changed2⟩ := trip2
          simp only [hab] at h
          by_cases hc2 : changed2 = true
          · rw [if_pos hc2] at h
            exact ih _ _ _ h
          · rw [if_neg hc2] at h
            by_cases hemp : groups2.isEmpty = true
            · rw [if_pos hemp] at h
              cases h
              cases groups2 with
              | nil => rfl
              | cons a b => simp at hemp
            · rw [if_neg hemp] at h
              cases hff : findFirstExact groups2 with
              | none =>
                simp only [hff] at h
                exact ih _ _ _ h
              | some cand =>
                cases cand with
                | nil =>
                  simp only [hff] at h
                  exact SolveResult.noConfusion h
                | cons candidate restc =>
                  simp only [hff] at h
                  cases hset : storeSet store2 candidate true with
                  | mk altStore r =>
                    cases r with
                    | error e =>
                      simp only [hset] at h
                      exact SolveResult.noConfusion h
                    | ok u =>
                      simp only [hset] at h
                      cases hrec : solveLoop n altStore groups2 with
                      | ok alt =>
                        simp only [hrec] at h
                        cases h
                        exact ih _ _ _ hrec
                      | contradiction =>
                        simp only [hrec] at h
                        cases hset2 : storeSet store2 candidate false with
                        | mk store3 r2 =>
                          cases r2 with
                          | error e2 =>
                            simp only [hset2] at h
                            exact SolveResult.noConfusion h
                          | ok u2 =>
                            simp only [hset2] at h
                            exact ih _ _ _ h
                      | outOfFuel =>
                        simp only [hrec] at h
                        exact SolveResult.noConfusion h
                      | panicked =>
                        simp only [hrec] at h
                        exact SolveResult.noConfusion h

theorem findFirstExact_ne_nil {groups : List (List Node × Bool)} {ns : List Node}
    (h : findFirstExact groups = some ns) : groups.isEmpty = false := by
  cases groups with
  | nil => exact absurd h (by simp [findFirstExact])
  | cons a b => rfl

/-! ## The subset-absorption drain forces the extra members false -/

theorem drainHaystack_forces :
    ∀ (hay : List Node) (store : List NodeData) (needle : List Node)
      (store1 : List NodeData),
      drainHaystack store needle hay = Except.ok store1 →
      (∀ n ∈ hay, n < store.length) →
      ∀ n ∈ hay, needle.contains n = false → storeGet store1 n = some false := by
  intro hay
  induction hay with
  | nil =>
    intro store needle store1 h hr n hn
    simp at hn
  | cons m rest ih =>
    intro store needle store1 h hr n hn hmem
    unfold drainHaystack at h
    by_cases hm : needle.contains m = true
    · rw [if_pos hm] at h
      rcases List.mem_cons.mp hn with heq | hn2
      · rw [heq, hm] at hmem
        exact Bool.noConfusion hmem
      · exact ih store needle store1 h
          (fun k hk => hr k (List.mem_cons_of_mem _ hk)) n hn2 hmem
    · rw [if_neg hm] at h
      cases hset : storeSet store m false with
      | mk store2 r =>
        cases r with
        | error e =>
          simp only [hset] at h
          exact Except.noConfusion h
        | ok u =>
          simp only [hset] at h
          have hlen2 : store2.length = store.length := by
            have h3 := storeSet_length store m false
            rw [hset] at h3
            exact h3
          rcases List.mem_cons.mp hn with heq | hn2
          · have hfalse : storeGet store2 n = some false := by
              rw [heq]
              exact storeSet_false_get hset (hr m (List.mem_cons_self _ _))
            exact drainHaystack_le _ _ _ _ h n false hfalse
          · exact ih store2 needle store1 h
              (fun k hk => by rw [hlen2]; exact hr k (List.mem_cons_of_mem _ hk))
              n hn2 hmem

theorem absorbScan_spec :
    ∀ (hays : List (List Node × Bool)) (store : List NodeData) (needle : List Node)
      (store1 : List NodeData) (hays1 : List (List Node × Bool)),
      absorbScan store needle hays = some (Except.ok (store1, hays1)) →
      (∀ grp ∈ hays, ∀ n ∈ grp.1, n < store.length) →
      ∃ hay ∈ hays, needle.length < hay.1.length ∧
        (∀ n ∈ needle, hay.1.contains n = true) ∧
        ∀ n ∈ hay.1, needle.contains n = false → storeGet store1 n = some false := by
  intro hays
  induction hays with
  | nil =>
    intro store needle store1 hays1 h hr
    exact absurd h (by simp [absorbScan])
  | cons hay rest ih =>
    intro store needle store1 hays1 h hr
    unfold absorbScan at h
    by_cases hlen : hay.1.length ≤ needle.length
    · rw [if_pos hlen] at h
      cases hsc : absorbScan store needle rest with
      | none =>
        rw [hsc] at h
        exact Option.noConfusion h
      | some r =>
        cases r with
        | error e =>
          simp only [hsc] at h
          cases h
        | ok pr =>
          obtain ⟨store2, rest1⟩ := pr
          simp only [hsc] at h
          cases h
          obtain ⟨H, hH, hp⟩ :=
            ih store needle _ _ hsc (fun g hg => hr g (List.mem_cons_of_mem _ hg))
          exact ⟨H, List.mem_cons_of_mem _ hH, hp⟩
    · rw [if_neg hlen] at h
      by_cases hall : (needle.all fun n => hay.1.contains n) = true
      · rw [if_pos hall] at h
        cases hdr : drainHaystack store needle hay.1 with
        | error e =>
          simp only [hdr] at h
          cases h
        | ok store2 =>
          simp only [hdr] at h
          cases h
          refine ⟨hay, List.mem_cons_self _ _, Nat.lt_of_not_le hlen, ?_, ?_⟩
          · exact fun n hn => List.all_eq_true.mp hall n hn
          · exact drainHaystack_forces _ _ _ _ hdr (hr hay (List.mem_cons_self _ _))
      · rw [if_neg hall] at h
        cases hsc : absorbScan store needle rest with
        | none =>
          rw [hsc] at h
          exact Option.noConfusion h
        | some r =>
          cases r with
          | error e =>
            simp only [hsc] at h
            cases h
          | ok pr =>
            obtain ⟨store2, rest1⟩ := pr
            simp only [hsc] at h
            cases h
            obtain ⟨H, hH, hp⟩ :=
              ih store needle _ _ hsc (fun g hg => hr g (List.mem_cons_of_mem _ hg))
            exact ⟨H, List.mem_cons_of_mem _ hH, hp⟩

theorem absorbGroups_spec :
    ∀ (groups : List (List Node × Bool)) (store store1 : List NodeData)
      (groups1 : List (List Node × Bool)),
      absorbGroups store groups = Except.ok (store1, groups1, true) →
      (∀ grp ∈ groups, ∀ n ∈ grp.1, n < store.length) →
      ∃ N ∈ groups, N.2 = true ∧ ∃ H ∈ groups,
        N.1.length < H.1.length ∧ (∀ n ∈ N.1, H.1.contains n = true) ∧
        ∀ n ∈ H.1, N.1.contains n = false → storeGet store1 n = some false := by
  intro groups
  induction groups with
  | nil =>
    intro store store1 groups1 h hr
    simp [absorbGroups] at h
  | cons grp rest ih =>
    intro store store1 groups1 h hr
    unfold absorbGroups at h
    by_cases hex : grp.2 = true
    · rw [if_pos hex] at h
      cases hsc : absorbScan store grp.1 rest with
      | none =>
        simp only [hsc] at h
        cases hre : absorbGroups store rest with
        | error e =>
          simp only [hre] at h
          exact Except.noConfusion h
        | ok trip =>
          obtain ⟨store2, rest1, ch2⟩ := trip
          simp only [hre] at h
          cases h
          obtain ⟨N, hN, hNex, H, hH, hp⟩ :=
            ih _ _ _ hre (fun g hg => hr g (List.mem_cons_of_mem _ hg))
          exact ⟨N, List.mem_cons_of_mem _ hN, hNex,
            H, List.mem_cons_of_mem _ hH, hp⟩
      | some r =>
        cases r with
        | error e =>
          simp only [hsc] at h
          exact Except.noConfusion h
        | ok pr =>
          obtain ⟨store2, rest1⟩ := pr
          simp only [hsc] at h
          cases h
          obtain ⟨H, hH, hp⟩ :=
            absorbScan_spec rest store grp.1 _ _ hsc
              (fun g hg => hr g (List.mem_cons_of_mem _ hg))
          exact ⟨grp, List.mem_cons_self _ _, hex,
            H, List.mem_cons_of_mem _ hH, hp⟩
    · rw [if_neg hex] at h
      cases hre : absorbGroups store rest with
      | error e =>
        simp only [hre] at h
        exact Except.noConfusion h
      | ok trip =>
        obtain ⟨store2, rest1, ch2⟩ := trip
        simp only [hre] at h
        cases h
        obtain ⟨N, hN, hNex, H, hH, hp⟩ :=
          ih _ _ _ hre (fun g hg => hr g (List.mem_cons_of_mem _ hg))
        exact ⟨N, List.mem_cons_of_mem _ hN, hNex,
          H, List.mem_cons_of_mem _ hH, hp⟩

/-! ## The found-true accumulator as a function of the number of true reads -/

theorem sweepMembers_ft (store : List NodeData) :
    ∀ (ns : List Node) (ft : Except Contradiction Bool) (ch : Bool),
      (sweepMembers store ns ft ch).2.1 =
        toggleN ft (ns.countP fun n => decide (storeGet store n = some true)) := by
  intro ns
  induction ns with
  | nil =>
    intro ft ch
    rfl
  | cons n rest ih =>
    intro ft ch
    by_cases hp : storeGet store n = some true
    · have hcount : ((n :: rest).countP fun k => decide (storeGet store k = some true))
          = (rest.countP fun k => decide (storeGet store k = some true)) + 1 := by
        simp [List.countP_cons, hp]
      have hstep : (sweepMembers store (n :: rest) ft ch).2.1
          = (sweepMembers store rest (toggle1 ft) (ch || (storeGet store n).isSome)).2.1 := by
        simp [sweepMembers, hp]
      rw [hcount, hstep, ih]
      rfl
    · have hcount : ((n :: rest).countP fun k => decide (storeGet store k = some true))
          = rest.countP fun k => decide (storeGet store k = some true) := by
        simp [List.countP_cons, hp]
      have hstep : (sweepMembers store (n :: rest) ft ch).2.1
          = (sweepMembers store rest ft (ch || (storeGet store n).isSome)).2.1 := by
        simp [sweepMembers, hp]
      rw [hcount, hstep, ih]

theorem sweepMembers_all_false (store : List NodeData) :
    ∀ (ns : List Node) (ft : Except Contradiction Bool) (ch : Bool),
      (∀ n ∈ ns, storeGet store n = some false) →
      sweepMembers store ns ft ch = ([], ft, ch || !ns.isEmpty) := by
  intro ns
  induction ns with
  | nil =>
    intro ft ch hall
    simp [sweepMembers]
  | cons n rest ih =>
    intro ft ch hall
    have hn : storeGet store n = some false := hall n (List.mem_cons_self _ _)
    have hrest := ih ft true (fun k hk => hall k (List.mem_cons_of_mem _ hk))
    simp [sweepMembers, hn, hrest]

/-! ## The claims -/

/-- C1.  The claim says: whenever `solve` returns `Ok`, every clause
registered via `require_exactly_one_of` has exactly one member reading
`Known(true)` and the rest `Known(false)`.  The code violates it: with
exactly-one clauses over `[1]`, `[2]`, `[3]` and `[1, 2, 3]`, the first
sweep forces nodes 1, 2 and 3 `true` one by one, and when the joint
clause is swept its `found_true` accumulator toggles
`Ok(true) → Err → Ok(true)` across the three true reads, so the clause
is treated as satisfied: `solve` returns `Ok` with all three members of
the exactly-one clause `[1, 2, 3]` reading `Known(true)`. -/
theorem C1_exactly_one_violated :
    c1Graph.one_of_groups = [([1], true), ([2], true), ([3], true), ([1, 2, 3], true)] ∧
    c1Graph.solve 2 = SolveResult.ok (Graph.mk
      [NodeData.Known false, NodeData.Known true, NodeData.Known true,
        NodeData.Known true] []) ∧
    (Graph.mk [NodeData.Known false, NodeData.Known true, NodeData.Known true,
      NodeData.Known true] []).get_node 1 = some true ∧
    (Graph.mk [NodeData.Known false, NodeData.Known true, NodeData.Known true,
      NodeData.Known true] []).get_node 2 = some true ∧
    (Graph.mk [NodeData.Known false, NodeData.Known true, NodeData.Known true,
      NodeData.Known true] []).get_node 3 = some true :=
  ⟨rfl, rfl, rfl, rfl, rfl⟩

/-- Helper for C2: on the stalled at-most-one state one loop iteration
reproduces precisely the same state, so each unit of fuel is consumed
without progress. -/
theorem stall_step (n : Nat) :
    solveLoop (n + 1) [NodeData.Known false, NodeData.Unknown] [([1], false)] =
    solveLoop n [NodeData.Known false, NodeData.Unknown] [([1], false)] := rfl

/-- C2, counterexample.  The claim says `solve` terminates on every
state.  It does not: on a state whose only live clause is an
at-most-one clause over a single unknown node, the sweep makes no
change, absorption finds nothing, and the backtracking fallback skips
every non-exactness clause, so the loop repeats the identical state
forever (the fuel model returns `outOfFuel` for every fuel). -/
theorem C2_nonterminating_input : runsForever stallGraph := by
  intro fuel
  induction fuel with
  | zero => rfl
  | succ n ih =>
    show solveLoop (n + 1) [NodeData.Known false, NodeData.Unknown] [([1], false)] =
      SolveResult.outOfFuel
    rw [stall_step]
    exact ih

/-- C2, amended.  Whenever `solve` does return `Ok`, the returned state
has no live clauses remaining (the `Ok` exit is taken only when the
group list is empty, and a speculative branch only returns a state that
itself exited that way). -/
theorem C2_ok_means_no_live_clauses (g : Graph) (fuel : Nat) (g1 : Graph)
    (h : g.solve fuel = SolveResult.ok g1) : g1.one_of_groups = [] :=
  solveLoop_ok_groups fuel g.nodes g.one_of_groups g1 h

/-- C2, witness: the amended theorem applied to the empty solver state,
which solves in one iteration. -/
theorem C2_witness : (Graph.mk [NodeData.Known false] []).one_of_groups = [] :=
  C2_ok_means_no_live_clauses Graph.default 1 (Graph.mk [NodeData.Known false] []) rfl

/-- C3, counterexample.  The claim reads universally: for *every*
exactness-true clause N and strictly larger clause H ⊇ N present in the
registry at a stalled fixpoint, all members of H outside N end up
`Known(false)` when solve returns `Ok`.  That is false of the code: in
`c3CounterGraph` the first sweep is a fixpoint with no change and no
contradiction, the registry contains the qualifying pair
N = `([1, 2], exact)` and H = `([1, 2, 3, 4, 5], at-most-one)`, yet
`solve` returns `Ok` with the H∖N members 3 and 4 reading
`Known(true)`: absorption drains only the *first* containment it finds
(`[9, 10]` into `[9, 10, 6, 7, 8]`), the resulting cascade forces
nodes 1, 3, 4 `true`, and the `found_true` toggle lets H's sweep pass
three simultaneous trues. -/
theorem C3_unabsorbed_pair_forced_true :
    sweepGroups c3CounterGraph.nodes
        (c3CounterGraph.one_of_groups.filter fun grp => !grp.1.isEmpty) =
      Except.ok (c3CounterGraph.nodes, c3CounterGraph.one_of_groups, false) ∧
    (([1, 2], true) : List Node × Bool) ∈ c3CounterGraph.one_of_groups ∧
    (([1, 2, 3, 4, 5], false) : List Node × Bool) ∈ c3CounterGraph.one_of_groups ∧
    (∀ n ∈ ([1, 2] : List Node), ([1, 2, 3, 4, 5] : List Node).contains n = true) ∧
    ([1, 2] : List Node).length < ([1, 2, 3, 4, 5] : List Node).length ∧
    c3CounterGraph.solve 5 = SolveResult.ok (Graph.mk
      [NodeData.Known false, NodeData.Known true, NodeData.Known false,
        NodeData.Known true, NodeData.Known true, NodeData.Known false,
        NodeData.Known false, NodeData.Known false, NodeData.Known false,
        NodeData.Known true, NodeData.Known false] []) ∧
    (Graph.mk [NodeData.Known false, NodeData.Known true, NodeData.Known false,
      NodeData.Known true, NodeData.Known true, NodeData.Known false,
      NodeData.Known false, NodeData.Known false, NodeData.Known false,
      NodeData.Known true, NodeData.Known false] []).get_node 3 = some true ∧
    (Graph.mk [NodeData.Known false, NodeData.Known true, NodeData.Known false,
      NodeData.Known true, NodeData.Known true, NodeData.Known false,
      NodeData.Known false, NodeData.Known false, NodeData.Known false,
      NodeData.Known true, NodeData.Known false] []).get_node 4 = some true :=
  ⟨rfl, by decide, by decide, by decide, by decide, rfl, rfl, rfl⟩

/-- C3, amended.  The guarantee holds for the pair the subset-absorption
step actually drains, not for every qualifying pair in the registry:
when the absorption pass reports a change, some exactness-true needle
clause N and a strictly larger haystack clause H containing every
member of N were found, H was drained, and every member of H outside N
was written `false`; if the restarted loop then returns `Ok`, those
members still read `Known(false)` in the returned state (known slots
are never reverted on a successful path).  Only one containment is
absorbed per stall, and members of a different qualifying haystack can
still end up `true` through the `found_true` toggle. -/
theorem C3_subset_absorption_forces_false
    (store store1 : List NodeData) (groups groups1 : List (List Node × Bool))
    (fuel : Nat) (gs : List (List Node × Bool)) (g1 : Graph)
    (habs : absorbGroups store groups = Except.ok (store1, groups1, true))
    (hrange : ∀ grp ∈ groups, ∀ n ∈ grp.1, n < store.length)
    (hrun : solveLoop fuel store1 gs = SolveResult.ok g1) :
    ∃ N ∈ groups, N.2 = true ∧ ∃ H ∈ groups,
      N.1.length < H.1.length ∧ (∀ n ∈ N.1, H.1.contains n = true) ∧
      ∀ n ∈ H.1, N.1.contains n = false → g1.get_node n = some false := by
  obtain ⟨N, hN, hNex, H, hH, hlen, hsub, hforce⟩ :=
    absorbGroups_spec groups store store1 groups1 habs hrange
  exact ⟨N, hN, hNex, H, hH, hlen, hsub,
    fun n hn hnc => solveLoop_ok_le fuel store1 gs g1 hrun n false (hforce n hn hnc)⟩

/-- C3, witness: needle `[1, 2]` absorbed into haystack `[1, 2, 3]`; the
extra member 3 reads `Known(false)` in the final solved state. -/
theorem C3_witness :
    (Graph.mk [NodeData.Known false, NodeData.Known true, NodeData.Known false,
      NodeData.Known false] []).get_node 3 = some false := by
  obtain ⟨N, hN, hNex, H, hH, hlen, hsub, hforce⟩ :=
    C3_subset_absorption_forces_false
      [NodeData.Known false, NodeData.Unknown, NodeData.Unknown, NodeData.Unknown]
      [NodeData.Known false, NodeData.Unknown, NodeData.Unknown, NodeData.Known false]
      [([1, 2], true), ([1, 2, 3], true)]
      [([1, 2], true), ([], true)]
      3
      [([1, 2], true), ([], true)]
      (Graph.mk [NodeData.Known false, NodeData.Known true, NodeData.Known false,
        NodeData.Known false] [])
      rfl (by decide) rfl
  simp only [List.mem_cons, List.not_mem_nil, or_false] at hN hH
  rcases hN with hN | hN <;> rcases hH with hH | hH <;> subst hN <;> subst hH
  · exact absurd hlen (by decide)
  · exact hforce 3 (by decide) (by decide)
  · exact absurd hlen (by decide)
  · exact absurd hlen (by decide)

/-- C4.  Writing `v` to a slot already `Known(w)` with `w ≠ v` returns
`Err(Contradiction)`, and the slot afterwards reads `Known(v)` — the
requested value overwrote the old one before the mismatch was
detected. -/
theorem C4_conflicting_write (g : Graph) (n : Node) (v w : Bool)
    (hknown : g.get_node n = some w) (hne : w ≠ v) :
    (g.set_node n v).2 = Except.error Contradiction.mk ∧
    (g.set_node n v).1.get_node n = some v := by
  have hget : g.nodes.get? n = some (NodeData.Known w) := storeGet_eq_some.mp hknown
  have hsnd : (storeSet g.nodes n v).2 = Except.error Contradiction.mk := by
    simp only [storeSet, hget]
    simp [hne]
  constructor
  · exact hsnd
  · show storeGet (storeSet g.nodes n v).1 n = some v
    rw [storeSet_fst, storeGet_eq_some]
    exact get?_set_self _ _ _ (get?_some_lt _ _ _ hget)

/-- C4, witness: node 1 is `Known(true)`; writing `false` errors and
leaves the slot `Known(false)`. -/
theorem C4_witness :
    ((Graph.mk [NodeData.Known false, NodeData.Known true] []).set_node 1 false).2 =
      Except.error Contradiction.mk ∧
    ((Graph.mk [NodeData.Known false, NodeData.Known true] []).set_node 1 false).1.get_node 1 =
      some false :=
  C4_conflicting_write (Graph.mk [NodeData.Known false, NodeData.Known true] [])
    1 false true rfl (by decide)

/-- C5, counterexample.  The claim says an exactness-true clause with an
empty member list present when `solve` is invoked yields
`Err(Contradiction)`.  It does not: the loop-top cleanup
(`retain(!nodes.is_empty())`) discards it as solved before the sweep can
look at it, and `solve` returns `Ok`. -/
theorem C5_empty_exact_clause_accepted :
    emptyExactGraph.one_of_groups = [(([] : List Node), true)] ∧
    emptyExactGraph.solve 1 = SolveResult.ok (Graph.mk [NodeData.Known false] []) :=
  ⟨rfl, rfl⟩

/-- C5, amended.  A clause whose member list is empty at the start of a
loop iteration is discarded with no effect whatever its exactness flag;
the exhaustion `Contradiction` for an exactness-true clause is raised
only when the clause *becomes* empty during a sweep, i.e. when its
(nonempty) member list reads entirely `Known(false)` with no `true`
found. -/
theorem C5_empty_clause_discipline :
    (∀ (fuel : Nat) (store : List NodeData) (e : Bool)
      (rest : List (List Node × Bool)),
      solveLoop fuel store ((([] : List Node), e) :: rest) = solveLoop fuel store rest) ∧
    (∀ (store : List NodeData) (ns : List Node), ns ≠ [] →
      (∀ n ∈ ns, storeGet store n = some false) →
      processGroup store (ns, true) = Except.error Contradiction.mk) := by
  constructor
  · intro fuel store e rest
    cases fuel with
    | zero => rfl
    | succ n => rfl
  · intro store ns hne hall
    have hsw := sweepMembers_all_false store ns (Except.ok false) false hall
    have hemp : ns.isEmpty = false := by
      cases ns with
      | nil => exact absurd rfl hne
      | cons a b => rfl
    simp [processGroup, hsw, hemp]

/-- C5, witness: the amended theorem at concrete inputs — an initially
empty exactness-true clause is skipped, and a clause over `[1]` whose
single member reads `Known(false)` raises the exhaustion
contradiction. -/
theorem C5_witness :
    solveLoop 1 [NodeData.Known false] [(([] : List Node), true)] =
      solveLoop 1 [NodeData.Known false] [] ∧
    processGroup [NodeData.Known false, NodeData.Known false] ([1], true) =
      Except.error Contradiction.mk := by
  constructor
  · exact C5_empty_clause_discipline.1 1 [NodeData.Known false] true []
  · exact C5_empty_clause_discipline.2 [NodeData.Known false, NodeData.Known false] [1]
      (by decide) (by decide)

/-- C6.  The claim says two members of one clause simultaneously reading
`Known(true)` makes `solve` return `Err(Contradiction)`.  The code
violates it: with nodes 1, 2, 3 all written `Known(true)` before
solving and a single exactly-one clause `[1, 2, 3]`, the sweep's
`found_true` accumulator toggles through the three true reads and ends
at `Ok(true)`, so `solve` returns `Ok` even though (more than) two
members read `Known(true)` in the same sweep of the same clause. -/
theorem C6_three_trues_no_contradiction :
    c6Graph.get_node 1 = some true ∧
    c6Graph.get_node 2 = some true ∧
    c6Graph.get_node 3 = some true ∧
    c6Graph.one_of_groups = [([1, 2, 3], true)] ∧
    c6Graph.solve 2 = SolveResult.ok (Graph.mk
      [NodeData.Known false, NodeData.Known true, NodeData.Known true,
        NodeData.Known true] []) :=
  ⟨rfl, rfl, rfl, rfl, rfl⟩

/-- C7.  When propagation and absorption both stall and the speculative
branch on the first member of the first exactness-true clause returns
`Contradiction`, the loop continues on the *original* (unbranched)
store with only the candidate slot changed to `Known(false)`: nothing
written inside the discarded branch is visible, every other slot is
untouched, and the group list is exactly the pre-branch one. -/
theorem C7_rejected_branch_frame
    (fuel : Nat) (store : List NodeData) (groups : List (List Node × Bool))
    (store1 : List NodeData) (groups1 : List (List Node × Bool))
    (store2 : List NodeData) (groups2 : List (List Node × Bool))
    (candidate : Node) (restc : List Node)
    (hsweep : sweepGroups store (groups.filter fun grp => !grp.1.isEmpty) =
      Except.ok (store1, groups1, false))
    (habs : absorbGroups store1 (sortGroupsByLen groups1) =
      Except.ok (store2, groups2, false))
    (hfind : findFirstExact groups2 = some (candidate :: restc))
    (hcand : store2.get? candidate = some NodeData.Unknown)
    (hbranch : solveLoop fuel (store2.set candidate (NodeData.Known true)) groups2 =
      SolveResult.contradiction) :
    solveLoop (fuel + 1) store groups =
      solveLoop fuel (store2.set candidate (NodeData.Known false)) groups2 ∧
    (∀ m, m ≠ candidate →
      (store2.set candidate (NodeData.Known false)).get? m = store2.get? m) ∧
    (store2.set candidate (NodeData.Known false)).get? candidate =
      some (NodeData.Known false) := by
  have hset_t : storeSet store2 candidate true =
      (store2.set candidate (NodeData.Known true), Except.ok ()) := by
    unfold storeSet
    rw [hcand]
  have hset_f : storeSet store2 candidate false =
      (store2.set candidate (NodeData.Known false), Except.ok ()) := by
    unfold storeSet
    rw [hcand]
  have hne : groups2.isEmpty = false := findFirstExact_ne_nil hfind
  refine ⟨?_, ?_, ?_⟩
  · simp only [solveLoop, hsweep, habs, hfind, hne, hset_t, hbranch, hset_f]
    simp
  · intro m hm
    exact get?_set_other store2 candidate m _ (fun hc => hm hc.symm)
  · exact get?_set_self store2 candidate _ (get?_some_lt store2 candidate _ hcand)

/-- C7, witness: the frame theorem at the duplicated-member clause
`[1, 1]` — the branch setting node 1 `true` contradicts itself, and the
loop continues on the original store with node 1 forced `false`. -/
theorem C7_witness :
    solveLoop 2 [NodeData.Known false, NodeData.Unknown] [([1, 1], true)] =
      solveLoop 1 [NodeData.Known false, NodeData.Known false] [([1, 1], true)] ∧
    ([NodeData.Known false, NodeData.Unknown].set 1 (NodeData.Known false)).get? 1 =
      some (NodeData.Known false) := by
  have h := C7_rejected_branch_frame 1
    [NodeData.Known false, NodeData.Unknown] [([1, 1], true)]
    [NodeData.Known false, NodeData.Unknown] [([1, 1], true)]
    [NodeData.Known false, NodeData.Unknown] [([1, 1], true)]
    1 [1] rfl rfl rfl rfl rfl
  exact ⟨h.1, h.2.2⟩

/-- C8.  Writing the value a slot already holds returns `Ok` and leaves
the whole solver state unchanged; in particular repeating the same
write is the same as performing it once. -/
theorem C8_idempotent_write (g : Graph) (n : Node) (v : Bool)
    (hknown : g.get_node n = some v) :
    g.set_node n v = (g, Except.ok ()) ∧
    (g.set_node n v).1.set_node n v = g.set_node n v := by
  have hget : g.nodes.get? n = some (NodeData.Known v) := storeGet_eq_some.mp hknown
  have hset : g.nodes.set n (NodeData.Known v) = g.nodes := set_of_get? _ _ _ hget
  have hss : storeSet g.nodes n v = (g.nodes, Except.ok ()) := by
    simp only [storeSet, hget]
    simp [hset]
  have h1 : g.set_node n v = (g, Except.ok ()) := by
    unfold Graph.set_node
    rw [hss]
  refine ⟨h1, ?_⟩
  rw [h1]
  exact h1

/-- C8, witness: rewriting `true` to the already-`Known(true)` node 1
is the identity. -/
theorem C8_witness :
    (Graph.mk [NodeData.Known false, NodeData.Known true] []).set_node 1 true =
      (Graph.mk [NodeData.Known false, NodeData.Known true] [], Except.ok ()) ∧
    ((Graph.mk [NodeData.Known false, NodeData.Known true] []).set_node 1 true).1.set_node 1 true =
      (Graph.mk [NodeData.Known false, NodeData.Known true] []).set_node 1 true :=
  C8_idempotent_write (Graph.mk [NodeData.Known false, NodeData.Known true] []) 1 true rfl

/-- C9.  `solve` is a pure function of the solver state: equal initial
states (same store contents, same registry in the same order) give
equal results — candidate selection, sweep order and the sort are all
deterministic, with no hidden source of nondeterminism. -/
theorem C9_solve_deterministic (g1 g2 : Graph) (fuel : Nat) (h : g1 = g2) :
    g1.solve fuel = g2.solve fuel := by
  rw [h]

/-- C9, witness: the determinism theorem at the initial state. -/
theorem C9_witness : Graph.default.solve 1 = Graph.default.solve 1 :=
  C9_solve_deterministic Graph.default Graph.default 1 rfl

/-- C10, counterexample.  The claim says a node occurring at two
positions of a clause and reading `Known(true)` makes `solve` return
`Err(Contradiction)`.  With node 1 `Known(true)` listed at *three*
positions of the clause `[1, 1, 1]` (so in particular at two), the
`found_true` accumulator toggles back to `Ok(true)` and `solve`
returns `Ok`. -/
theorem C10_triple_occurrence_escapes :
    tripGraph.one_of_groups = [([1, 1, 1], true)] ∧
    tripGraph.get_node 1 = some true ∧
    tripGraph.solve 2 = SolveResult.ok (Graph.mk
      [NodeData.Known false, NodeData.Known true] []) :=
  ⟨rfl, rfl, rfl⟩

/-- C10, amended.  Duplicate occurrences do count as separate members in
the two-truths check, but the check toggles rather than latches: a
sweep of a clause in which exactly two member positions read
`Known(true)` ends with `found_true = Err` and raises `Contradiction`
(whatever the exactness flag), while an odd number ≥ 3 of true
positions escapes it.  In particular, for the state whose only clause
is `require_exactly_one_of [1, 1]` with node 1 unknown, `solve` returns
`Err(Contradiction)` rather than forcing node 1 `true`: the speculative
branch trying `true` sees two true reads and contradicts, and forcing
`false` then exhausts the clause. -/
theorem C10_duplicate_members_contradiction :
    (∀ (store : List NodeData) (ns : List Node) (e : Bool),
      (ns.countP fun n => decide (storeGet store n = some true)) = 2 →
      processGroup store (ns, e) = Except.error Contradiction.mk) ∧
    dupGraph.solve 2 = SolveResult.contradiction := by
  constructor
  · intro store ns e hc
    have hft := sweepMembers_ft store ns (Except.ok false) false
    rw [hc] at hft
    have hft2 : (sweepMembers store ns (Except.ok false) false).2.1 =
        Except.error Contradiction.mk := hft
    simp [processGroup, hft2]
  · rfl

/-- C10, witness: the clause `[1, 1]` with node 1 `Known(true)` has two
true positions, and its sweep raises `Contradiction`. -/
theorem C10_witness :
    processGroup [NodeData.Known false, NodeData.Known true] ([1, 1], true) =
      Except.error Contradiction.mk :=
  C10_duplicate_members_contradiction.1
    [NodeData.Known false, NodeData.Known true] [1, 1] true (by decide)

end XatSolve
